import Mathlib

/-!
# Verification of the vindao_agents core loop

Shallow embedding of the agent reasoning/tool-execution loop of the
`vindao_agents` repository, together with proofs of the specified
properties.

Embedded components:

* `parse_tool_call` — the @-syntax tool-call parser
  (`src/vindao_agents/parsers/parse_tool_call.py` and the identical
  `ToolParsers/AtSyntaxParser.py`).  The Python code matches the regex
  `@(name1|name2|...)\s*\(([^()]*(?:\([^()]*\)[^()]*)*)\)` with
  `re.search`.  The embedding reproduces the regex semantics exactly:
  leftmost match position wins, alternatives are tried in list order,
  the argument body admits exactly one level of nested parentheses,
  and with an empty name list the joined alternation is the empty
  string (which matches the empty name).  The model was differentially
  tested against CPython `re` on 400k random inputs.
* `execute_tool_call` — the eval-based tool executor
  (`executors/execute_tool_call.py`), with CPython's name-resolution
  rule for `eval(expr, {name: func})`: when the globals dict has no
  `__builtins__` key, CPython inserts the builtins module, so builtins
  remain reachable.
* `complete_chat` — the retry/backoff loop of
  `InferenceAdapters/LiteLLMInferenceAdapter.py`.
* `invokeLoop` / `runRound` — the iteration controller `Agent.invoke`
  (`Agent.py`), including the `@DISABLE_TOOL_CALL@` suppression marker
  handling and the max-iterations message.
* persistence path computation (`AgentStores/JsonAgentStore.py`,
  `Agent.from_session_id`) and the persisted-record round trip
  (`Agent.from_json_string`).
* Python default-argument semantics for `Agent.__init__`
  (`session_id: str = uuid().hex` is evaluated once, at definition
  time).
-/

namespace VindaoAgents

/-! ## Tool-call parser -/

/-- The codepoints CPython treats as whitespace (`Py_UNICODE_ISSPACE`):
this single set underlies `\s` in a `str` regex pattern, `str.isspace`,
and the default `str.strip`/`lstrip` — the three agree on every
codepoint (verified by enumerating all of Unicode in CPython 3.11):
tab through carriage return, the file/group/record/unit separators
U+001C–U+001F, space, next line U+0085, no-break space U+00A0, ogham
space mark U+1680, the U+2000–U+200A spaces, line/paragraph separators
U+2028/U+2029, narrow no-break space U+202F, medium mathematical space
U+205F and ideographic space U+3000. -/
def pythonWhitespaceCodepoints : List Nat :=
  [0x09, 0x0a, 0x0b, 0x0c, 0x0d, 0x1c, 0x1d, 0x1e, 0x1f, 0x20, 0x85, 0xa0,
    0x1680, 0x2000, 0x2001, 0x2002, 0x2003, 0x2004, 0x2005, 0x2006, 0x2007,
    0x2008, 0x2009, 0x200a, 0x2028, 0x2029, 0x202f, 0x205f, 0x3000]

/-- Python's `\s` character class for `str` patterns (also the
`str.lstrip` whitespace set — CPython uses the same predicate for
both). -/
def pyIsSpace (c : Char) : Bool :=
  pythonWhitespaceCodepoints.contains c.toNat

/-- Deterministic scan of the regex fragment
`([^()]*(?:\([^()]*\)[^()]*)*)\)` applied to the characters following
the opening parenthesis of a tool call: the argument body may contain
parenthesized groups nested to depth one only.  `inner` records whether
the scan is currently inside such a group.  On success, returns the
consumed characters (argument body including the final closing
parenthesis) and the remaining input.  The greedy regex backtracks to a
unique decomposition, so this scan is equivalent to it. -/
def scanArgs : List Char → Bool → Option (List Char × List Char)
  | [], _ => none
  | c :: cs, inner =>
    if c = '(' then
      if inner then none
      else
        match scanArgs cs true with
        | some (consumed, rest) => some ('(' :: consumed, rest)
        | none => none
    else if c = ')' then
      if inner then
        match scanArgs cs false with
        | some (consumed, rest) => some (')' :: consumed, rest)
        | none => none
      else some ([')'], cs)
    else
      match scanArgs cs inner with
      | some (consumed, rest) => some (c :: consumed, rest)
      | none => none

/-- Strip a literal prefix, returning the remainder on success. -/
def stripPrefixL : List Char → List Char → Option (List Char)
  | [], cs => some cs
  | _ :: _, [] => none
  | p :: ps, c :: cs => if p = c then stripPrefixL ps cs else none

/-- Try to match one alternative of the regex at the current position:
the characters `cs` follow the `@` marker; the pattern is the literal
tool name, then `\s*`, then a parenthesized depth-one-balanced argument
list.  Returns the matched text (without the `@`). -/
def tryName (name : List Char) (cs : List Char) : Option (List Char) :=
  match stripPrefixL name cs with
  | none => none
  | some after =>
    match after.dropWhile pyIsSpace with
    | [] => none
    | d :: rest =>
      if d = '(' then
        match scanArgs rest false with
        | some (consumed, _) =>
          some (name ++ after.takeWhile pyIsSpace ++ '(' :: consumed)
        | none => none
      else none

/-- Try the alternatives of the regex alternation in order (Python `re`
tries alternatives left to right and takes the first one for which the
rest of the pattern also matches). -/
def tryAlts (alts : List String) (cs : List Char) : Option (String × List Char) :=
  match alts with
  | [] => none
  | name :: more =>
    match tryName name.data cs with
    | some txt => some (name, txt)
    | none => tryAlts more cs

/-- Try to match the whole pattern at the current position: a literal
`@` followed by one of the alternatives. -/
def tryMatchAt (alts : List String) (cs : List Char) : Option (String × List Char) :=
  match cs with
  | '@' :: rest => tryAlts alts rest
  | _ => none

/-- `re.search`: try every start position from left to right and return
the first (leftmost) match. -/
def searchCall (alts : List String) : List Char → Option (String × List Char)
  | [] => none
  | c :: cs =>
    match tryMatchAt alts (c :: cs) with
    | some r => some r
    | none => searchCall alts cs

/-- `parse_tool_call(content, tool_names)`
(`parsers/parse_tool_call.py`; `AtSyntaxParser.parse` in
`ToolParsers/AtSyntaxParser.py` is the same code).  Builds the pattern
`@(n1|n2|...)\s*\(([^()]*(?:\([^()]*\)[^()]*)*)\)` and searches the
content; on a match returns the group-1 tool name and the matched text
with the leading `@` removed.  Note `"|".join([])` is the empty string,
so an empty registry yields the alternation of the single empty name. -/
def parse_tool_call (content : String) (tool_names : List String) :
    Option (String × String) :=
  let alts := if tool_names.isEmpty then [""] else tool_names
  (searchCall alts content.data).map fun r => (r.1, String.mk r.2)

/-! ### Declarative characterizations of call texts -/

/-- Scan of an argument body with at most one level of parenthesis
nesting and no closing parenthesis at the top level; the `Bool` state
records whether the scan is inside an inner group.  A body is accepted
by the regex's argument-list fragment iff the scan of it from state
`false` returns `some false`. -/
def depth1Scan : List Char → Bool → Option Bool
  | [], st => some st
  | c :: cs, st =>
    if c = '(' then
      if st then none else depth1Scan cs true
    else if c = ')' then
      if st then depth1Scan cs false else none
    else depth1Scan cs st

/-- Balance scan for arbitrary-depth nesting: tracks the current depth,
fails on a closing parenthesis at depth zero, and the body is balanced
iff the scan from depth 0 ends at depth 0. -/
def balancedScan : List Char → Nat → Option Nat
  | [], d => some d
  | c :: cs, d =>
    if c = '(' then balancedScan cs (d + 1)
    else if c = ')' then
      match d with
      | 0 => none
      | d' + 1 => balancedScan cs d'
    else balancedScan cs d

/-- `s` is the exact text of a complete tool call, in the code's sense:
`@`, a registered name, optional whitespace, and a parenthesized
argument list whose nesting does not exceed depth one. -/
def IsCallTextD1 (names : List String) (s : List Char) : Prop :=
  ∃ name ws body, name ∈ names ∧ (∀ c ∈ ws, pyIsSpace c = true) ∧
    depth1Scan body false = some false ∧
    s = '@' :: (name.data ++ ws ++ '(' :: (body ++ [')']))

/-- `s` is the exact text of a complete tool call in the specification's
sense: `@`, a registered name, optional whitespace, and a parenthesized
argument list with correctly balanced parentheses to any nesting
depth. -/
def IsCallTextSpec (names : List String) (s : List Char) : Prop :=
  ∃ name ws body, name ∈ names ∧ (∀ c ∈ ws, pyIsSpace c = true) ∧
    balancedScan body 0 = some 0 ∧
    s = '@' :: (name.data ++ ws ++ '(' :: (body ++ [')']))

/-! ### Parser lemmas -/

theorem stripPrefixL_append (p t : List Char) : stripPrefixL p (p ++ t) = some t := by
  induction p with
  | nil => rfl
  | cons c cs ih => simp [stripPrefixL, ih]

theorem stripPrefixL_eq_some {p cs t : List Char} (h : stripPrefixL p cs = some t) :
    cs = p ++ t := by
  induction p generalizing cs with
  | nil => simpa [stripPrefixL] using h
  | cons c ps ih =>
    match cs with
    | [] => simp [stripPrefixL] at h
    | d :: ds =>
      simp only [stripPrefixL] at h
      split at h
      · next heq => simp [heq, ih h]
      · exact absurd h (by simp)

theorem takeWhile_ws_append (ws t : List Char) (h : ∀ c ∈ ws, pyIsSpace c = true)
    (d : Char) (hd : pyIsSpace d = false) :
    (ws ++ d :: t).takeWhile pyIsSpace = ws ∧
      (ws ++ d :: t).dropWhile pyIsSpace = d :: t := by
  induction ws with
  | nil => simp [List.takeWhile, List.dropWhile, hd]
  | cons c cs ih =>
    have hc : pyIsSpace c = true := h c (by simp)
    have ih' := ih fun x hx => h x (by simp [hx])
    simp [List.takeWhile, List.dropWhile, hc, ih'.1, ih'.2]

theorem scanArgs_complete (body : List Char) :
    ∀ (st : Bool) (rest : List Char), depth1Scan body st = some false →
      scanArgs (body ++ ')' :: rest) st = some (body ++ [')'], rest) := by
  induction body with
  | nil =>
    intro st rest h
    simp only [depth1Scan, Option.some.injEq] at h
    subst h
    simp [scanArgs]
  | cons c cs ih =>
    intro st rest h
    by_cases hc : c = '('
    · subst hc
      cases st with
      | true => simp [depth1Scan] at h
      | false =>
        simp only [depth1Scan, reduceIte] at h
        simp [scanArgs, List.cons_append, ih true rest h]
    · by_cases hc' : c = ')'
      · subst hc'
        cases st with
        | true =>
          simp only [depth1Scan, reduceIte] at h
          simp [scanArgs, List.cons_append, ih false rest h]
        | false => simp [depth1Scan] at h
      · simp only [depth1Scan, if_neg hc, if_neg hc'] at h
        simp [scanArgs, List.cons_append, hc, hc', ih st rest h]

theorem scanArgs_sound (cs : List Char) :
    ∀ (st : Bool) (consumed rest : List Char),
      scanArgs cs st = some (consumed, rest) →
      ∃ body, consumed = body ++ [')'] ∧ cs = body ++ ')' :: rest ∧
        depth1Scan body st = some false := by
  induction cs with
  | nil => intro st consumed rest h; simp [scanArgs] at h
  | cons c cs ih =>
    intro st consumed rest h
    simp only [scanArgs] at h
    by_cases hc : c = '('
    · subst hc
      rw [if_pos rfl] at h
      cases st with
      | true => simp at h
      | false =>
        rw [if_neg (by decide)] at h
        match hs : scanArgs cs true with
        | none => rw [hs] at h; exact absurd h (by simp)
        | some (con', rest') =>
          rw [hs] at h
          simp only [Option.some.injEq, Prod.mk.injEq] at h
          obtain ⟨hcon, hrest⟩ := h
          obtain ⟨body', h1, h2, h3⟩ := ih true con' rest' hs
          subst hrest
          refine ⟨'(' :: body', ?_, ?_, ?_⟩
          · simp [← hcon, h1]
          · simp [h2]
          · simpa [depth1Scan] using h3
    · by_cases hc' : c = ')'
      · subst hc'
        rw [if_neg (by decide), if_pos rfl] at h
        cases st with
        | true =>
          rw [if_pos rfl] at h
          match hs : scanArgs cs false with
          | none => rw [hs] at h; exact absurd h (by simp)
          | some (con', rest') =>
            rw [hs] at h
            simp only [Option.some.injEq, Prod.mk.injEq] at h
            obtain ⟨hcon, hrest⟩ := h
            obtain ⟨body', h1, h2, h3⟩ := ih false con' rest' hs
            subst hrest
            refine ⟨')' :: body', ?_, ?_, ?_⟩
            · simp [← hcon, h1]
            · simp [h2]
            · simpa [depth1Scan] using h3
        | false =>
          rw [if_neg (by decide)] at h
          simp only [Option.some.injEq, Prod.mk.injEq] at h
          obtain ⟨hcon, hrest⟩ := h
          exact ⟨[], by simp [← hcon], by simp [hrest], rfl⟩
      · rw [if_neg hc, if_neg hc'] at h
        match hs : scanArgs cs st with
        | none => rw [hs] at h; exact absurd h (by simp)
        | some (con', rest') =>
          rw [hs] at h
          simp only [Option.some.injEq, Prod.mk.injEq] at h
          obtain ⟨hcon, hrest⟩ := h
          obtain ⟨body', h1, h2, h3⟩ := ih st con' rest' hs
          subst hrest
          refine ⟨c :: body', by simp [← hcon, h1], by simp [h2], ?_⟩
          simpa [depth1Scan, hc, hc'] using h3

theorem tryName_complete (name ws body rest : List Char)
    (hws : ∀ c ∈ ws, pyIsSpace c = true) (hb : depth1Scan body false = some false) :
    tryName name (name ++ (ws ++ '(' :: (body ++ ')' :: rest))) =
      some (name ++ ws ++ '(' :: (body ++ [')'])) := by
  have hpar : pyIsSpace '(' = false := by decide
  have htw := takeWhile_ws_append ws (body ++ ')' :: rest) hws '(' hpar
  simp only [tryName, stripPrefixL_append, htw.1, htw.2,
    scanArgs_complete body false rest hb]
  simp

theorem tryName_sound {name cs txt : List Char} (h : tryName name cs = some txt) :
    ∃ ws body rest, (∀ c ∈ ws, pyIsSpace c = true) ∧
      depth1Scan body false = some false ∧
      txt = name ++ ws ++ '(' :: (body ++ [')']) ∧
      cs = name ++ (ws ++ '(' :: (body ++ ')' :: rest)) := by
  simp only [tryName] at h
  split at h
  · exact absurd h (by simp)
  · rename_i after hp
    have hcs : cs = name ++ after := stripPrefixL_eq_some hp
    split at h
    · exact absurd h (by simp)
    · rename_i d ds hd
      by_cases hdp : d = '('
      · subst hdp
        rw [if_pos rfl] at h
        split at h
        · rename_i consumed rest' hs
          simp only [Option.some.injEq] at h
          obtain ⟨body, h1, h2, h3⟩ := scanArgs_sound ds false consumed rest' hs
          refine ⟨after.takeWhile pyIsSpace, body, rest', ?_, h3, ?_, ?_⟩
          · intro c hc
            exact List.mem_takeWhile_imp hc
          · rw [← h, h1]
          · have key : after = after.takeWhile pyIsSpace ++ '(' :: (body ++ ')' :: rest') := by
              conv_lhs => rw [← List.takeWhile_append_dropWhile pyIsSpace after]
              rw [hd, h2]
            rw [hcs]
            conv_lhs => rw [key]
        · exact absurd h (by simp)
      · rw [if_neg hdp] at h
        exact absurd h (by simp)

theorem tryAlts_sound {alts : List String} {cs : List Char} {n : String}
    {txt : List Char} (h : tryAlts alts cs = some (n, txt)) :
    n ∈ alts ∧ tryName n.data cs = some txt := by
  induction alts with
  | nil => simp [tryAlts] at h
  | cons a more ih =>
    simp only [tryAlts] at h
    split at h
    · rename_i t ht
      simp only [Option.some.injEq, Prod.mk.injEq] at h
      obtain ⟨h1, h2⟩ := h
      subst h1; subst h2
      exact ⟨by simp, ht⟩
    · obtain ⟨h1, h2⟩ := ih h
      exact ⟨by simp [h1], h2⟩

theorem tryAlts_complete {alts : List String} {cs : List Char} {name : String}
    {txt : List Char} (hmem : name ∈ alts) (h : tryName name.data cs = some txt) :
    (tryAlts alts cs).isSome := by
  induction alts with
  | nil => simp at hmem
  | cons a more ih =>
    simp only [tryAlts]
    split
    · simp
    · rename_i hnone
      rcases List.mem_cons.mp hmem with h1 | h1
      · subst h1; rw [h] at hnone; exact Option.noConfusion hnone
      · exact ih h1

theorem tryMatchAt_sound {alts : List String} {cs : List Char} {n : String}
    {txt : List Char} (h : tryMatchAt alts cs = some (n, txt)) :
    n ∈ alts ∧ ∃ t, cs = ('@' :: txt) ++ t ∧ IsCallTextD1 alts ('@' :: txt) := by
  match cs with
  | [] => simp [tryMatchAt] at h
  | c :: rest =>
    by_cases hc : c = '@'
    · subst hc
      simp only [tryMatchAt] at h
      obtain ⟨hmem, hname⟩ := tryAlts_sound h
      obtain ⟨ws, body, rest', hws, hb, htxt, hrest⟩ := tryName_sound hname
      refine ⟨hmem, rest', ?_, n, ws, body, hmem, hws, hb, ?_⟩
      · rw [hrest, htxt]
        simp [List.append_assoc]
      · rw [htxt]
    · rw [show tryMatchAt alts (c :: rest) = none by
        simp only [tryMatchAt]
        split
        · rename_i r heq
          exact absurd (List.cons.inj heq).1 hc
        · rfl] at h
      exact Option.noConfusion h

theorem tryMatchAt_complete {alts : List String} {s t cs : List Char}
    (hcall : IsCallTextD1 alts s) (hpre : s ++ t = cs) :
    (tryMatchAt alts cs).isSome := by
  obtain ⟨name, ws, body, hmem, hws, hb, hs⟩ := hcall
  subst hs
  subst hpre
  have heq : (name.data ++ ws ++ '(' :: (body ++ [')'])) ++ t =
      name.data ++ (ws ++ '(' :: (body ++ ')' :: t)) := by
    simp [List.append_assoc]
  simp only [List.cons_append, tryMatchAt, heq]
  exact tryAlts_complete hmem (tryName_complete name.data ws body t hws hb)

theorem searchCall_sound {alts : List String} {cs : List Char} {r : String × List Char}
    (h : searchCall alts cs = some r) :
    ∃ i, tryMatchAt alts (cs.drop i) = some r ∧
      ∀ j < i, tryMatchAt alts (cs.drop j) = none := by
  induction cs with
  | nil => simp [searchCall] at h
  | cons c cs ih =>
    simp only [searchCall] at h
    split at h
    · rename_i r' hr
      cases h
      exact ⟨0, hr, by simp⟩
    · rename_i hnone
      obtain ⟨i, h1, h2⟩ := ih h
      refine ⟨i + 1, by simpa using h1, ?_⟩
      intro j hj
      match j with
      | 0 => simpa using hnone
      | j' + 1 =>
        have : j' < i := by omega
        simpa using h2 j' this

theorem searchCall_complete {alts : List String} {cs : List Char} {i : Nat}
    {r : String × List Char} (h : tryMatchAt alts (cs.drop i) = some r) :
    (searchCall alts cs).isSome := by
  induction cs generalizing i with
  | nil =>
    simp only [List.drop_nil] at h
    simp [tryMatchAt] at h
  | cons c cs ih =>
    simp only [searchCall]
    split
    · simp
    · rename_i hnone
      match i with
      | 0 => rw [List.drop_zero] at h; rw [h] at hnone; exact Option.noConfusion hnone
      | i' + 1 => exact ih (by simpa using h)

/-- If the parser reports a match, the matched text (with the `@` put
back) occurs in the content, it is a complete call of nesting depth at
most one to one of the effective alternatives, and no match is possible
at any earlier start position. -/
theorem parse_tool_call_sound {content : String} {names : List String}
    {n c : String} (hne : names ≠ [])
    (h : parse_tool_call content names = some (n, c)) :
    n ∈ names ∧ IsCallTextD1 names ('@' :: c.data) ∧
      ∃ i t, ('@' :: c.data) ++ t = content.data.drop i ∧
        ∀ j < i, tryMatchAt names (content.data.drop j) = none := by
  have halts : (if names.isEmpty then [""] else names) = names := by
    cases names with
    | nil => exact absurd rfl hne
    | cons a more => simp
  simp only [parse_tool_call, halts, Option.map_eq_some'] at h
  obtain ⟨⟨n', txt⟩, hsearch, hpair⟩ := h
  simp only [Prod.mk.injEq] at hpair
  obtain ⟨hn, hc⟩ := hpair
  subst hn
  obtain ⟨i, hmatch, hbefore⟩ := searchCall_sound hsearch
  obtain ⟨hmem, t, ht, hcall⟩ := tryMatchAt_sound hmatch
  have hcdata : c.data = txt := by rw [← hc]
  exact ⟨hmem, by rwa [hcdata], i, t, by rw [hcdata, ht], hbefore⟩

/-- If a complete depth-at-most-one call to a registered name occurs
anywhere in the content, the parser reports a match. -/
theorem parse_tool_call_complete {content : String} {names : List String}
    {s : List Char} (hne : names ≠ []) (hinf : s <:+: content.data)
    (hcall : IsCallTextD1 names s) :
    (parse_tool_call content names).isSome := by
  have halts : (if names.isEmpty then [""] else names) = names := by
    cases names with
    | nil => exact absurd rfl hne
    | cons a more => simp
  obtain ⟨u, v, huv⟩ := hinf
  have hdrop : content.data.drop u.length = s ++ v := by
    rw [← huv, List.append_assoc, List.drop_left]
  have hsome := tryMatchAt_complete hcall (rfl : s ++ v = s ++ v)
  rw [← hdrop] at hsome
  obtain ⟨r, hr⟩ := Option.isSome_iff_exists.mp hsome
  have := searchCall_complete hr
  simp only [parse_tool_call, halts]
  obtain ⟨r', hr'⟩ := Option.isSome_iff_exists.mp this
  simp [hr']

/-- A reported match always exhibits an opening parenthesis in the
content (used to show that no prefix of the suppression marker can
trigger a tool call). -/
theorem parse_tool_call_paren {content : String} {names : List String}
    {n c : String} (h : parse_tool_call content names = some (n, c)) :
    '(' ∈ content.data := by
  simp only [parse_tool_call, Option.map_eq_some'] at h
  obtain ⟨⟨n', txt⟩, hsearch, -⟩ := h
  obtain ⟨i, hmatch, -⟩ := searchCall_sound hsearch
  obtain ⟨-, t, ht, hcall⟩ := tryMatchAt_sound hmatch
  obtain ⟨name, ws, body, -, -, -, hs⟩ := hcall
  have hmem : '(' ∈ content.data.drop i := by
    rw [ht, hs]
    simp
  exact List.mem_of_mem_drop hmem

/-- Depth-at-most-one calls are balanced calls in the specification's
any-depth sense. -/
theorem depth1Scan_balanced (body : List Char) :
    ∀ st : Bool, depth1Scan body st = some false →
      balancedScan body (cond st 1 0) = some 0 := by
  induction body with
  | nil =>
    intro st h
    simp only [depth1Scan, Option.some.injEq] at h
    subst h
    rfl
  | cons c cs ih =>
    intro st h
    by_cases hc : c = '('
    · subst hc
      cases st with
      | true => simp [depth1Scan] at h
      | false =>
        simp only [depth1Scan, reduceIte] at h
        simpa [balancedScan] using ih true h
    · by_cases hc' : c = ')'
      · subst hc'
        cases st with
        | true =>
          simp only [depth1Scan, reduceIte] at h
          simpa [balancedScan] using ih false h
        | false => simp [depth1Scan] at h
      · simp only [depth1Scan, if_neg hc, if_neg hc'] at h
        simpa [balancedScan, hc, hc'] using ih st h

theorem IsCallTextD1.toSpec {names : List String} {s : List Char}
    (h : IsCallTextD1 names s) : IsCallTextSpec names s := by
  obtain ⟨name, ws, body, hmem, hws, hb, hs⟩ := h
  exact ⟨name, ws, body, hmem, hws, depth1Scan_balanced body false hb, hs⟩

/-! ### Claim C1 -/

/-- C1 counterexample: the claim promises matches for balanced argument
lists "to any nesting depth", but `@f((1,(2,3)))` — a complete call to
the registered name `f` whose argument list is balanced at depth two —
is not matched by the parser: the regex admits only one level of
nesting. -/
theorem C1_counterexample_depth_two_call :
    parse_tool_call "@f((1,(2,3)))" ["f"] = none ∧
      IsCallTextSpec ["f"] ("@f((1,(2,3)))".data) := by
  refine ⟨by decide, "f", [], "(1,(2,3))".data, ?_, ?_, ?_, ?_⟩
  · simp
  · intro c hc
    simp at hc
  · decide
  · decide

/-- C1 (amended: nesting inside the argument list is supported only to
depth one): whenever the parser reports a match it returns a registered
name together with the exact text of a complete call (marker stripped)
occurring in the content, and no complete call starts at any earlier
position; conversely, whenever the content contains a complete call
(with at most one level of nested parentheses) to a registered name,
the parser reports a match. -/
theorem C1_parser_first_complete_call (content : String) (names : List String)
    (hne : names ≠ []) :
    (∀ n c, parse_tool_call content names = some (n, c) →
      n ∈ names ∧ IsCallTextD1 names ('@' :: c.data) ∧
        ∃ i, ('@' :: c.data) <+: content.data.drop i ∧
          ∀ j < i, ∀ s, s <+: content.data.drop j → ¬ IsCallTextD1 names s) ∧
    (∀ s, s <:+: content.data → IsCallTextD1 names s →
      (parse_tool_call content names).isSome) := by
  constructor
  · intro n c h
    obtain ⟨hmem, hcall, i, t, heq, hbefore⟩ := parse_tool_call_sound hne h
    refine ⟨hmem, hcall, i, ⟨t, heq⟩, ?_⟩
    intro j hj s hs hscall
    obtain ⟨t', ht'⟩ := hs
    have := tryMatchAt_complete hscall ht'
    rw [hbefore j hj] at this
    simp at this
  · intro s hinf hcall
    exact parse_tool_call_complete hne hinf hcall

/-- C1 witness: on `"x @f(1)"` with registry `["f"]`, the completeness
half of the theorem applies to the embedded call `@f(1)` and yields a
match. -/
theorem C1_witness : (parse_tool_call "x @f(1)" ["f"]).isSome :=
  (C1_parser_first_complete_call "x @f(1)" ["f"] (by decide)).2 "@f(1)".data
    (by refine ⟨"x ".data, [], ?_⟩; decide)
    ⟨"f", [], ['1'], by simp, by intro c hc; simp at hc, by decide, by decide⟩

/-! ### Claim C9 -/

/-- C9 counterexample: with the empty registry, `"|".join([])` produces
the pattern `@()\s*\(...\)` whose name group matches the empty string,
so the text `"@(1)"` — in which no registered name appears at all,
there being none — still produces a match (with the vacuous empty
name, which is not a registered name) instead of `None`. -/
theorem C9_counterexample_empty_registry :
    parse_tool_call "@(1)" [] = some ("", "(1)") ∧
      (([] : List String).contains "") = false := by
  decide

/-- C9 (amended: for every non-empty registry): if the text contains no
complete well-formed call to a registered name — no substring is a
marker followed by a registered name and a balanced argument list —
then the parser returns no match. -/
theorem C9_no_wellformed_call_no_match (content : String) (names : List String)
    (hne : names ≠ [])
    (hno : ∀ s, s <:+: content.data → ¬ IsCallTextSpec names s) :
    parse_tool_call content names = none := by
  cases h : parse_tool_call content names with
  | none => rfl
  | some r =>
    obtain ⟨n, c⟩ := r
    obtain ⟨hmem, hcall, i, t, heq, -⟩ := parse_tool_call_sound hne h
    have hinf : ('@' :: c.data) <:+: content.data := by
      refine ⟨content.data.take i, t, ?_⟩
      rw [List.append_assoc, heq, List.take_append_drop]
    exact absurd hcall.toSpec (hno _ hinf)

/-- C9 witness: the registry `["f"]` and the text `"hello"` (which
contains no call at all) yield no match. -/
theorem C9_witness : parse_tool_call "hello" ["f"] = none :=
  C9_no_wellformed_call_no_match "hello" ["f"] (by decide) (by
    intro s hs hcall
    obtain ⟨name, ws, body, -, -, -, hseq⟩ := hcall
    have hmem : '@' ∈ s := by rw [hseq]; exact List.mem_cons_self _ _
    exact absurd (hs.subset hmem) (by decide))

/-! ## Iteration controller: one round of `Agent.invoke`

A round of `Agent.invoke` (Agent.py, lines 115–163) drains the chunk
stream, accumulating reasoning and content; after accumulating each
chunk it (1) disables tool-call detection if the accumulated content
starts with the suppression marker `@DISABLE_TOOL_CALL@` and (2) if
detection is enabled, runs the parser on the accumulated content,
stopping at the first reported call.  If the stream ends without a
detected call, the marker (first occurrence — Python
`replace(marker, "", 1)` guarded by `startswith`) is removed, the
remainder left-stripped, and the result recorded as the final
assistant message content. -/

inductive ChunkKind where
  | reasoning
  | content
deriving DecidableEq

/-- The reserved suppression marker. -/
def MARKER : String := "@DISABLE_TOOL_CALL@"

structure RoundState where
  accContent : String
  accReasoning : String
  enabled : Bool
deriving DecidableEq

inductive StepRes where
  | next (st : RoundState)
  | call (st : RoundState) (c : String × String)
deriving DecidableEq

/-- Accumulate one chunk into the matching accumulator
(`accumulated_reasoning += chunk` / `accumulated_content += chunk`). -/
def accumulate (st : RoundState) (chunk : String × ChunkKind) : RoundState :=
  match chunk.2 with
  | .reasoning => { st with accReasoning := st.accReasoning ++ chunk.1 }
  | .content => { st with accContent := st.accContent ++ chunk.1 }

/-- `if accumulated_content.startswith("@DISABLE_TOOL_CALL@"): tool_call_enabled = False`. -/
def applyMarkerCheck (st : RoundState) : RoundState :=
  if MARKER.data.isPrefixOf st.accContent.data then { st with enabled := false }
  else st

/-- One iteration of the `for chunk, chunk_type in ...complete_chat(...)`
body: accumulate, check the marker, then (if enabled) parse. -/
def roundStep (names : List String) (st : RoundState)
    (chunk : String × ChunkKind) : StepRes :=
  let st2 := applyMarkerCheck (accumulate st chunk)
  if st2.enabled then
    match parse_tool_call st2.accContent names with
    | some c => .call st2 c
    | none => .next st2
  else .next st2

/-- Drain the stream: stop at the first detected tool call, else return
the final accumulator state. -/
def runRound (names : List String) :
    RoundState → List (String × ChunkKind) → RoundState × Option (String × String)
  | st, [] => (st, none)
  | st, ch :: rest =>
    match roundStep names st ch with
    | .next st' => runRound names st' rest
    | .call st' c => (st', some c)

/-- Python `str.lstrip()` restricted to ASCII whitespace. -/
def pyLstrip (s : String) : String := String.mk (s.data.dropWhile pyIsSpace)

/-- The content recorded in the final assistant message when the round
ends without a tool call:
`accumulated_content.replace("@DISABLE_TOOL_CALL@", "", 1).lstrip()`
guarded by `startswith`, i.e. the leading marker occurrence is removed
and the remainder is left-stripped. -/
def finalAssistantContent (accContent : String) : String :=
  if MARKER.data.isPrefixOf accContent.data then
    pyLstrip (String.mk (accContent.data.drop MARKER.data.length))
  else accContent

/-- Concatenation of the content-kind chunks of a stream. -/
def contentOf : List (String × ChunkKind) → String
  | [] => ""
  | (s, .content) :: rest => s ++ contentOf rest
  | (_, .reasoning) :: rest => contentOf rest

theorem marker_no_paren : '(' ∉ MARKER.data := by decide

theorem applyMarkerCheck_accContent (st : RoundState) :
    (applyMarkerCheck st).accContent = st.accContent := by
  unfold applyMarkerCheck
  split <;> rfl

theorem accumulate_content (st : RoundState) (s : String) :
    (accumulate st (s, .content)).accContent = st.accContent ++ s := rfl

theorem accumulate_reasoning (st : RoundState) (s : String) :
    (accumulate st (s, .reasoning)).accContent = st.accContent := rfl

/-- If the accumulated content after this chunk is a prefix of a text
that itself begins with the suppression marker, the step cannot detect
a tool call: while the accumulator is shorter than the marker it
contains no parenthesis, and from the moment it covers the marker
detection is disabled. -/
theorem roundStep_next (names : List String) (st : RoundState)
    (chunk : String × ChunkKind) (full : List Char)
    (hacc : (accumulate st chunk).accContent.data <+: full)
    (hM : MARKER.data <+: full) :
    roundStep names st chunk = .next (applyMarkerCheck (accumulate st chunk)) := by
  by_cases hpf : MARKER.data.isPrefixOf (accumulate st chunk).accContent.data
  · have h2 : applyMarkerCheck (accumulate st chunk) =
        { accumulate st chunk with enabled := false } := by
      unfold applyMarkerCheck
      rw [if_pos hpf]
    simp only [roundStep, h2, if_neg]
    simp
  · have h2 : applyMarkerCheck (accumulate st chunk) = accumulate st chunk := by
      unfold applyMarkerCheck
      rw [if_neg hpf]
    have hpM : (accumulate st chunk).accContent.data <+: MARKER.data := by
      rcases List.prefix_or_prefix_of_prefix hM hacc with h1 | h1
      · have h1' := List.isPrefixOf_iff_prefix.mpr h1
        exact absurd h1' hpf
      · exact h1
    rw [roundStep, h2]
    split
    · cases hp : parse_tool_call (accumulate st chunk).accContent names with
      | none => simp [hp]
      | some r =>
        obtain ⟨n, c⟩ := r
        have := parse_tool_call_paren hp
        exact absurd (hpM.subset this) marker_no_paren
    · rfl

/-- Invariant run: if the full content of the round starts with the
marker, the round ends without a tool call and the accumulator holds
the full content. -/
theorem runRound_no_call (names : List String) :
    ∀ (chunks : List (String × ChunkKind)) (st : RoundState),
      MARKER.data <+: (st.accContent ++ contentOf chunks).data →
      (runRound names st chunks).2 = none ∧
        (runRound names st chunks).1.accContent = st.accContent ++ contentOf chunks := by
  intro chunks
  induction chunks with
  | nil =>
    intro st h
    simp [runRound, contentOf, String.append_empty]
  | cons ch rest ih =>
    intro st h
    obtain ⟨s, kind⟩ := ch
    have hfull : (accumulate st (s, kind)).accContent ++ contentOf rest =
        st.accContent ++ contentOf ((s, kind) :: rest) := by
      cases kind
      · rw [accumulate_reasoning]
        rfl
      · rw [accumulate_content, contentOf, String.append_assoc]
    have hM : MARKER.data <+:
        ((accumulate st (s, kind)).accContent ++ contentOf rest).data := by
      rw [hfull]; exact h
    have hacc : (accumulate st (s, kind)).accContent.data <+:
        ((accumulate st (s, kind)).accContent ++ contentOf rest).data := by
      rw [String.data_append]
      exact List.prefix_append _ _
    have hstep := roundStep_next names st (s, kind) _ hacc hM
    have hrec := ih (applyMarkerCheck (accumulate st (s, kind))) (by
      rw [applyMarkerCheck_accContent, hfull]
      exact h)
    rw [runRound, hstep]
    refine ⟨hrec.1, ?_⟩
    rw [hrec.2, applyMarkerCheck_accContent, hfull]

/-! ### Claim C5 -/

/-- C5 counterexample: the stream
`"@DISABLE_TOOL_CALL@a@DISABLE_TOOL_CALL@"` begins with the suppression
marker, so the round detects no tool call — but the recorded assistant
content is `"a@DISABLE_TOOL_CALL@"`, which still contains the marker
text: Python's `replace(marker, "", 1)` removes only the first
occurrence, contradicting "never contains the marker text". -/
theorem C5_counterexample_marker_text_survives :
    (runRound ["f"] ⟨"", "", true⟩
        [("@DISABLE_TOOL_CALL@a@DISABLE_TOOL_CALL@", .content)]).2 = none ∧
      MARKER.data <:+:
        (finalAssistantContent
          (runRound ["f"] ⟨"", "", true⟩
            [("@DISABLE_TOOL_CALL@a@DISABLE_TOOL_CALL@", .content)]).1.accContent).data := by
  decide

/-- C5 (amended: only the leading marker occurrence is removed; later
occurrences may survive in the stored text): whenever the round's
content stream begins with the suppression marker, no tool call is
detected or executed during the round, and the recorded final
assistant content is the full accumulated content with the leading
marker removed and left whitespace stripped. -/
theorem C5_marker_suppresses_round (names : List String)
    (chunks : List (String × ChunkKind)) (e0 : Bool)
    (h : MARKER.data <+: (contentOf chunks).data) :
    (runRound names ⟨"", "", e0⟩ chunks).2 = none ∧
      finalAssistantContent (runRound names ⟨"", "", e0⟩ chunks).1.accContent =
        pyLstrip (String.mk ((contentOf chunks).data.drop MARKER.data.length)) := by
  have hinit : (⟨"", "", e0⟩ : RoundState).accContent ++ contentOf chunks =
      contentOf chunks := String.empty_append _
  have key := runRound_no_call names chunks ⟨"", "", e0⟩ (by rw [hinit]; exact h)
  refine ⟨key.1, ?_⟩
  rw [key.2, hinit]
  unfold finalAssistantContent
  have h' := List.isPrefixOf_iff_prefix.mpr h
  rw [if_pos h']

/-- C5 witness: the stream `"@DISABLE_TOOL_CALL@The answer is 42."`
triggers no tool call and records `"The answer is 42."`. -/
theorem C5_witness :
    (runRound ["f"] ⟨"", "", true⟩
        [("@DISABLE_TOOL_CALL@The answer is 42.", .content)]).2 = none ∧
      finalAssistantContent
          (runRound ["f"] ⟨"", "", true⟩
            [("@DISABLE_TOOL_CALL@The answer is 42.", .content)]).1.accContent =
        pyLstrip (String.mk
          ((contentOf [("@DISABLE_TOOL_CALL@The answer is 42.", .content)]).data.drop
            MARKER.data.length)) :=
  C5_marker_suppresses_round ["f"]
    [("@DISABLE_TOOL_CALL@The answer is 42.", .content)] true (by decide)

/-! ## Iteration controller: the recursive loop of `Agent.invoke`

`Agent.invoke(iteration, max_iterations)` (Agent.py, lines 115–163):
on entry, if `iteration == max_iterations - 1` it appends a User
message with the max-iterations instruction and disables tool-call
detection for the round; it then streams; on a detected call it
appends the assistant/tool message pair and recurses at
`iteration + 1`; otherwise it appends the final assistant message and
stops.  The comparison `iteration == max_iterations - 1` is over
Python's unbounded signed integers: with `max_iterations = 0` the
right-hand side is `-1`, which the non-negative iteration counter
never equals, so the recursion never terminates.  In the model the
test is `iteration + 1 == max_iterations` over `Nat`, which agrees
with the Python test for every `iteration ≥ 0`.  Each round's stream
is abstracted by `hasCall : Nat → Bool`, telling whether round `i`'s
output contains a detectable tool call; `fuel` bounds the number of
rounds the model is willing to unfold.  -/

/-- The User message content appended one round before exhaustion. -/
def maxIterInstruction : String :=
  "You have reached the maximum number of iterations. Please provide a summary without further tool usage."

inductive LoopMsg where
  | user (content : String)
  | assistantWithCall (round : Nat)
  | toolResult (round : Nat)
  | assistantFinal (round : Nat)
deriving DecidableEq

structure InvokeResult where
  msgs : List LoopMsg
  rounds : Nat
  finished : Bool
deriving DecidableEq

/-- The recursion of `Agent.invoke`, with `fuel` bounding the number of
unfolded rounds (`finished = false` reports fuel exhaustion, i.e. the
Python recursion is still running after `fuel` rounds). -/
def invokeLoop (hasCall : Nat → Bool) :
    Nat → List LoopMsg → Nat → Nat → InvokeResult
  | 0, msgs, _, _ => ⟨msgs, 0, false⟩
  | fuel + 1, msgs, i, n =>
    let isLast : Bool := i + 1 == n
    let msgs1 := if isLast then msgs ++ [.user maxIterInstruction] else msgs
    if !isLast && hasCall i then
      let r := invokeLoop hasCall fuel (msgs1 ++ [.assistantWithCall i, .toolResult i]) (i + 1) n
      ⟨r.msgs, r.rounds + 1, r.finished⟩
    else
      ⟨msgs1 ++ [.assistantFinal i], 1, true⟩

/-- Closed form of the loop when every round's stream contains a tool
call and the budget has not yet been hit: rounds `i, …, N-2` each
append an assistant/tool pair and recurse; round `N-1` appends the
max-iterations User message, runs with detection disabled, and appends
the final assistant message. -/
theorem invokeLoop_always (N : Nat) :
    ∀ (fuel i : Nat) (msgs : List LoopMsg), i < N → N - i ≤ fuel →
      invokeLoop (fun _ => true) fuel msgs i N =
        ⟨msgs ++ (List.range' i (N - 1 - i)).flatMap
              (fun j => [.assistantWithCall j, .toolResult j])
            ++ [.user maxIterInstruction, .assistantFinal (N - 1)],
          N - i, true⟩ := by
  intro fuel
  induction fuel with
  | zero => intro i msgs h1 h2; omega
  | succ fuel ih =>
    intro i msgs h1 h2
    by_cases hl : i + 1 = N
    · have hb : (i + 1 == N) = true := by simp [hl]
      have h3 : N - 1 - i = 0 := by omega
      have h4 : N - i = 1 := by omega
      have h5 : N - 1 = i := by omega
      simp only [invokeLoop, hb, if_true, Bool.not_true, Bool.false_and,
        Bool.false_eq_true, if_false, h3, h4, h5]
      simp [List.append_assoc]
    · have hb : (i + 1 == N) = false := by simp [hl]
      have hrec := ih (i + 1) (msgs ++ [.assistantWithCall i, .toolResult i])
        (by omega) (by omega)
      simp only [invokeLoop, hb, Bool.false_eq_true, if_false, Bool.not_false,
        Bool.true_and, if_true, hrec]
      have hr : N - 1 - i = (N - 1 - (i + 1)) + 1 := by omega
      have hst : N - (i + 1) + 1 = N - i := by omega
      rw [hr, List.range'_succ]
      simp [List.append_assoc, hst]

/-! ### Claim C4 -/

/-- C4 counterexample: with iteration budget `N = 0` and a model that
always attempts a tool call, the loop does not perform "at most 0
rounds": `iteration == max_iterations - 1` compares against `-1` and
never fires, so after 5 rounds of fuel the recursion is still running
(5 rounds performed, not finished). -/
theorem C4_counterexample_budget_zero :
    (invokeLoop (fun _ => true) 5 [] 0 0).rounds = 5 ∧
      (invokeLoop (fun _ => true) 5 [] 0 0).finished = false := by
  decide

/-- C4 (amended: for budgets `N ≥ 1`): with `max_iterations = N` and a
model stream that always contains a tool call, the loop performs
exactly `N` rounds and terminates; rounds `0, …, N-2` each append an
assistant/tool pair, and on entry to round `N-1` the max-iterations
User message is appended before that round's inference, detection is
disabled for that round (no tool messages from it), and the loop ends
with the final assistant message — no further recursion. -/
theorem C4_iteration_budget (N fuel : Nat) (h1 : 1 ≤ N) (h2 : N ≤ fuel) :
    invokeLoop (fun _ => true) fuel [] 0 N =
      ⟨(List.range (N - 1)).flatMap (fun j => [.assistantWithCall j, .toolResult j])
          ++ [.user maxIterInstruction, .assistantFinal (N - 1)], N, true⟩ := by
  have h := invokeLoop_always N fuel 0 [] (by omega) (by omega)
  simpa [List.range_eq_range'] using h

/-- C4 witness: budget 2 with fuel 3. -/
theorem C4_witness :
    invokeLoop (fun _ => true) 3 [] 0 2 =
      ⟨(List.range (2 - 1)).flatMap (fun j => [.assistantWithCall j, .toolResult j])
          ++ [.user maxIterInstruction, .assistantFinal (2 - 1)], 2, true⟩ :=
  C4_iteration_budget 2 3 (by decide) (by decide)

/-! ## Streaming inference session: retry with exponential backoff

`LiteLLMInferenceAdapter.complete_chat(messages, max_retries=5, retry=0)`
wraps the provider call and the chunk loop in one `try`: any exception
is retried (if `retry < max_retries`) after `sleep(2 ** retry)` by
re-invoking `complete_chat(messages, max_retries, retry + 1)` on the
unchanged message list, else re-raised.  The `k`-th underlying provider
call happens at `retry = k`.  An attempt is abstracted as either a
failure (raising after yielding some prefix of chunks — a failure
before the first chunk has an empty prefix) or a full successful
stream. -/

inductive Attempt where
  | failure (partialChunks : List (String × ChunkKind))
  | success (chunks : List (String × ChunkKind))

inductive RetryOutcome where
  | ok
  | raised
deriving DecidableEq

/-- Observable trace of one `complete_chat` invocation: the message
payload of each underlying provider call in order, the backoff sleeps
in order, the chunks delivered to the caller, and whether the
invocation finally raised. -/
structure RetryTrace (M : Type) where
  sent : List M
  sleeps : List Nat
  output : List (String × ChunkKind)
  outcome : RetryOutcome

/-- `complete_chat` with the provider abstracted as a map from attempt
index to outcome. -/
def complete_chat {M : Type} (msgs : M) (attempts : Nat → Attempt)
    (maxRetries retry : Nat) : RetryTrace M :=
  match attempts retry with
  | .success cs => ⟨[msgs], [], cs, .ok⟩
  | .failure pcs =>
    if _h : retry < maxRetries then
      let r := complete_chat msgs attempts maxRetries (retry + 1)
      ⟨msgs :: r.sent, 2 ^ retry :: r.sleeps, pcs ++ r.output, r.outcome⟩
    else ⟨[msgs], [], pcs, .raised⟩
termination_by maxRetries - retry
decreasing_by omega

theorem complete_chat_sent_eq {M : Type} (msgs : M) (attempts : Nat → Attempt)
    (maxRetries : Nat) :
    ∀ k retry, maxRetries - retry ≤ k →
      ∀ m ∈ (complete_chat msgs attempts maxRetries retry).sent, m = msgs := by
  intro k
  induction k with
  | zero =>
    intro retry hk m hm
    have hr : ¬ retry < maxRetries := by omega
    rw [complete_chat] at hm
    match hat : attempts retry with
    | .success cs => simp only [hat] at hm; simpa using hm
    | .failure pcs =>
      simp only [hat, dif_neg hr] at hm
      simpa using hm
  | succ k ih =>
    intro retry hk m hm
    rw [complete_chat] at hm
    match hat : attempts retry with
    | .success cs => simp only [hat] at hm; simpa using hm
    | .failure pcs =>
      by_cases hr : retry < maxRetries
      · simp only [hat, dif_pos hr, List.mem_cons] at hm
        rcases hm with hm | hm
        · exact hm
        · exact ih (retry + 1) (by omega) m hm
      · simp only [hat, dif_neg hr] at hm
        simpa using hm

/-! ### Claim C6 -/

/-- C6: while the retry count is below the maximum, a streaming failure
sleeps `2^retry` units and re-issues the whole request with the
unmodified message sequence (every underlying call sends the same
messages); once the count reaches the maximum, a failure propagates;
and in the concrete scenario — failures on attempts 1 and 2, success
on attempt 3 with `max_retries = 5` — there are exactly 3 underlying
provider calls, two backoff sleeps of 1 and 2 units, and the
successful stream's chunks are delivered unchanged. -/
theorem C6_retry_backoff {M : Type} (msgs : M) (attempts : Nat → Attempt)
    (maxRetries retry : Nat) :
    (∀ pcs, retry < maxRetries → attempts retry = .failure pcs →
      complete_chat msgs attempts maxRetries retry =
        ⟨msgs :: (complete_chat msgs attempts maxRetries (retry + 1)).sent,
          2 ^ retry :: (complete_chat msgs attempts maxRetries (retry + 1)).sleeps,
          pcs ++ (complete_chat msgs attempts maxRetries (retry + 1)).output,
          (complete_chat msgs attempts maxRetries (retry + 1)).outcome⟩) ∧
    (∀ m ∈ (complete_chat msgs attempts maxRetries retry).sent, m = msgs) ∧
    (∀ pcs, ¬ retry < maxRetries → attempts retry = .failure pcs →
      complete_chat msgs attempts maxRetries retry =
        ⟨[msgs], [], pcs, .raised⟩) ∧
    (∀ cs, attempts 0 = .failure [] → attempts 1 = .failure [] →
      attempts 2 = .success cs →
      complete_chat msgs attempts 5 0 = ⟨[msgs, msgs, msgs], [1, 2], cs, .ok⟩) := by
  refine ⟨?_, ?_, ?_, ?_⟩
  · intro pcs hr hat
    rw [complete_chat]
    simp only [hat, dif_pos hr]
  · exact complete_chat_sent_eq msgs attempts maxRetries (maxRetries - retry) retry
      le_rfl
  · intro pcs hr hat
    rw [complete_chat]
    simp only [hat, dif_neg hr]
  · intro cs h0 h1 h2
    rw [complete_chat]
    simp only [h0, dif_pos (by omega : (0 : Nat) < 5)]
    rw [complete_chat]
    simp only [h1, dif_pos (by omega : (1 : Nat) < 5)]
    rw [complete_chat]
    simp only [h2]
    norm_num

/-- C6 witness: a provider failing on the first two attempts and
succeeding on the third, observed through the scenario branch of the
theorem. -/
theorem C6_witness :
    complete_chat "request"
        (fun k => if k = 2 then .success [("hi", .content)] else .failure [])
        5 0 =
      ⟨["request", "request", "request"], [1, 2], [("hi", .content)], .ok⟩ :=
  (C6_retry_backoff "request"
      (fun k => if k = 2 then .success [("hi", .content)] else .failure []) 5 0).2.2.2
    [("hi", .content)] rfl rfl rfl

/-! ## Tool executor

`execute_tool_call(tool_call, tool)` (executors/execute_tool_call.py)
is `try: return eval(tool_call, {tool.name: tool.func}) except
Exception as e: return format_exception(e)`.  Two CPython facts matter:

* `eval` with a globals dict lacking a `__builtins__` key inserts the
  builtins module under that key, so every builtin remains reachable
  from the evaluated expression (verified against CPython 3.11);
* the `try` body returns `eval`'s value as is — the annotation says
  `-> str` but no coercion happens (the repository's own test asserts
  `result == 5`, an `int`); the `str(...)` coercion happens at the call
  site in `Agent.invoke`. -/

/-- Values reachable from the executor's evaluation environment. -/
inductive PyVal where
  | builtin (name : String)
  | toolFunc (name : String)
deriving DecidableEq

/-- Name resolution for `eval(expr, {tool.name: tool.func})`: the
globals dict binds only the tool's name, but since it has no
`__builtins__` key CPython inserts the builtins module, to which
unresolved names fall back.  The builtins module itself is abstracted
as a lookup map (`builtins`), so statements about the resolution chain
quantify over it instead of fixing a version-specific name list. -/
def evalGlobalsLookup (builtins : String → Option PyVal) (toolName : String)
    (f : PyVal) (n : String) : Option PyVal :=
  if n = toolName then some f else builtins n

/-- A fragment of CPython's builtins module: every name listed here is
verified to be a member of `dir(builtins)` in CPython 3.11.  The
fragment is used only positively — to exhibit that a genuine builtin
resolves inside the executor's context; absence from this list
certifies nothing about the real module (which is far larger). -/
def cpythonBuiltinsFragment : String → Option PyVal := fun n =>
  if n ∈ ["abs", "len", "sum", "str", "int", "float", "dict", "list", "map",
      "print", "open", "eval", "exec", "__import__", "type", "range",
      "getattr", "setattr"] then some (.builtin n) else none

/-! ### Claim C2 -/

/-- C2 counterexample: in the execution context of a tool named
`sample_tool`, the names `len` and `sum` — neither of which is the
tool's name — still resolve to values (the builtins), because `eval`
inserts `__builtins__` into a globals dict that lacks that key.  Shown
at a builtins map that is a verified fragment of CPython's module. -/
theorem C2_counterexample_builtins_reachable :
    (("len" : String) == "sample_tool") = false ∧
      evalGlobalsLookup cpythonBuiltinsFragment "sample_tool"
          (.toolFunc "sample_tool") "len" = some (.builtin "len") ∧
      (("sum" : String) == "sample_tool") = false ∧
      evalGlobalsLookup cpythonBuiltinsFragment "sample_tool"
          (.toolFunc "sample_tool") "sum" = some (.builtin "sum") := by
  decide

/-- C2 (amended: the execution context of `eval(call, {name: func})`
exposes exactly the tool's name and Python's builtins): for every
builtins module, the tool's own name resolves to its callable, and
every identifier that is neither the tool's name nor a name of the
builtins module fails to resolve — in particular no other module or
user identifier is reachable. -/
theorem C2_restricted_globals (builtins : String → Option PyVal)
    (toolName : String) (f : PyVal) (n : String)
    (h1 : n ≠ toolName) (h2 : builtins n = none) :
    evalGlobalsLookup builtins toolName f toolName = some f ∧
      evalGlobalsLookup builtins toolName f n = none := by
  constructor
  · simp [evalGlobalsLookup]
  · simp [evalGlobalsLookup, h1, h2]

/-- C2 witness: under the tool `sample_tool`, the name `os` — neither
the tool's name nor a name of CPython's builtins module (`os` is a
module one must import, not a builtin) — does not resolve. -/
theorem C2_witness :
    evalGlobalsLookup cpythonBuiltinsFragment "sample_tool"
        (.toolFunc "sample_tool") "sample_tool" =
        some (.toolFunc "sample_tool") ∧
      evalGlobalsLookup cpythonBuiltinsFragment "sample_tool"
        (.toolFunc "sample_tool") "os" = none :=
  C2_restricted_globals cpythonBuiltinsFragment "sample_tool"
    (.toolFunc "sample_tool") "os" (by decide) (by decide)

/-! ### Claim C3 -/

/-- Python objects, restricted to the shapes the executor claims are
about. -/
inductive PyObj where
  | pyInt (n : Int)
  | pyStr (s : String)
  | pyNone
deriving DecidableEq

/-- A raised Python exception: type name, message, and the traceback
lines `traceback.format_exception` would produce. -/
structure PyExc where
  ty : String
  msg : String
  tb : List String
deriving DecidableEq

/-- The fields of `Tool` (Tool.py) used by the executor: the wrapped
function's `__name__` and the callable itself (description, source and
signature are prompt-rendering metadata and are not used here). -/
structure Tool where
  name : String
  func : List PyObj → Except PyExc PyObj

/-- `format_exception(exc)` (formatters/format_exception.py) without a
`function` filter: the joined traceback lines, stripped, followed by
`f"{type(exc).__name__}: {str(exc)}"`. -/
def format_exception (exc : PyExc) : String :=
  (String.join exc.tb).trim ++ (exc.ty ++ ": " ++ exc.msg)

/-- A call expression of the in-band micro-language: a name applied to
literal arguments. -/
inductive CallExpr where
  | call (fname : String) (args : List PyObj)

/-- Evaluation of the call expression inside `eval`'s environment: a
call to the tool's name invokes the bound callable (which may itself
raise); a call to an unbound name raises `NameError`.  (Calls to
builtins are not modelled; they would be contained by the same
`except` clause.) -/
def evalCall (tool : Tool) : CallExpr → Except PyExc PyObj
  | .call f args =>
    if f = tool.name then tool.func args
    else .error ⟨"NameError", "name " ++ f ++ " is not defined", []⟩

/-- `execute_tool_call(tool_call, tool)`: the `try` body returns the
evaluated value unchanged; any exception is converted by
`format_exception` into a string result. -/
def execute_tool_call (e : CallExpr) (tool : Tool) : PyObj :=
  match evalCall tool e with
  | .ok v => v
  | .error exc => .pyStr (format_exception exc)

def isPyStr : PyObj → Bool
  | .pyStr _ => true
  | _ => false

/-- The repository's own executor test tool: `sample_tool(x, y) = x + y`. -/
def sample_tool : Tool :=
  ⟨"sample_tool", fun args =>
    match args with
    | [.pyInt a, .pyInt b] => .ok (.pyInt (a + b))
    | _ => .error ⟨"TypeError", "unsupported operand type(s)", []⟩⟩

/-- The repository's own executor test tool: `faulty_tool(x) = 10 / x`. -/
def faulty_tool : Tool :=
  ⟨"faulty_tool", fun args =>
    match args with
    | [.pyInt x] =>
      if x = 0 then .error ⟨"ZeroDivisionError", "division by zero", []⟩
      else .ok (.pyInt (10 / x))
    | _ => .error ⟨"TypeError", "unsupported operand type(s)", []⟩⟩

/-- C3 counterexample: `execute_tool_call("sample_tool(2, 3)",
sample_tool)` returns the integer `5`, not a string — the claim's "on
success the callable's return value is coerced to text" fails (the
repository's own test asserts `result == 5`; the `str` coercion
happens later, in `Agent.invoke`). -/
theorem C3_counterexample_success_not_string :
    execute_tool_call (.call "sample_tool" [.pyInt 2, .pyInt 3]) sample_tool =
        .pyInt 5 ∧
      isPyStr (execute_tool_call (.call "sample_tool" [.pyInt 2, .pyInt 3])
          sample_tool) = false := by
  decide

/-- C3 (amended: faults never propagate and become diagnostic strings
containing the fault type and message, but a successful call returns
the callable's raw value — the coercion to text happens in the agent
loop, not in the executor): every evaluation fault is returned as the
formatted diagnostic string, which ends with `"<type>: <message>"`,
and every successful evaluation returns the value unchanged. -/
theorem C3_executor_never_raises (e : CallExpr) (tool : Tool) :
    (∀ exc, evalCall tool e = .error exc →
      execute_tool_call e tool = .pyStr (format_exception exc) ∧
        (exc.ty ++ ": " ++ exc.msg).data <:+ (format_exception exc).data) ∧
    (∀ v, evalCall tool e = .ok v → execute_tool_call e tool = v) := by
  constructor
  · intro exc hexc
    refine ⟨by simp [execute_tool_call, hexc], ?_⟩
    refine ⟨(String.join exc.tb).trim.data, ?_⟩
    simp [format_exception, String.data_append]
  · intro v hv
    simp [execute_tool_call, hv]

/-- C3 witness: the divide-by-zero tool called with a zero divisor
yields a string containing `ZeroDivisionError: division by zero`
instead of propagating. -/
theorem C3_witness :
    execute_tool_call (.call "faulty_tool" [.pyInt 0]) faulty_tool =
        .pyStr (format_exception ⟨"ZeroDivisionError", "division by zero", []⟩) ∧
      (("ZeroDivisionError" : String) ++ ": " ++ "division by zero").data <:+
        (format_exception ⟨"ZeroDivisionError", "division by zero", []⟩).data :=
  (C3_executor_never_raises (.call "faulty_tool" [.pyInt 0]) faulty_tool).1
    ⟨"ZeroDivisionError", "division by zero", []⟩ rfl

/-! ## Persistence paths

`JsonAgentStore.save(agent, path=None)` writes, by default, to
`Path(agent.config.user_data_dir) / f"{agent.state.session_id}.json"`
— this is the path exercised by auto-save, which calls
`self.store.save(self)`.  `Agent.from_session_id(session_id,
user_data_dir)` reads from
`Path(user_data_dir) / "sessions" / f"{session_id}.json"`.  Paths are
modelled as their component lists. -/

/-- The default save path of `JsonAgentStore.save`. -/
def jsonStoreSavePath (userDataDir sessionId : String) : List String :=
  [userDataDir, sessionId ++ ".json"]

/-- The path read by `Agent.from_session_id`. -/
def fromSessionIdPath (userDataDir sessionId : String) : List String :=
  [userDataDir, "sessions", sessionId ++ ".json"]

/-! ### Claim C7 -/

/-- C7: the resume path differs from the auto-save path — `save` writes
`<user_data_dir>/<session_id>.json` while `from_session_id` reads
`<user_data_dir>/sessions/<session_id>.json` — so a record persisted by
auto-save is not located by `from_session_id` with the same base
directory; shown at the concrete failing input
(`user_data_dir = ".vindao_agents"`, `session_id = "abc123"`). -/
theorem C7_resume_path_mismatch :
    jsonStoreSavePath ".vindao_agents" "abc123" =
        [".vindao_agents", "abc123.json"] ∧
      fromSessionIdPath ".vindao_agents" "abc123" =
        [".vindao_agents", "sessions", "abc123.json"] ∧
      (jsonStoreSavePath ".vindao_agents" "abc123" ==
        fromSessionIdPath ".vindao_agents" "abc123") = false := by
  decide

/-! ## Session identifiers and Python default arguments

`Agent.__init__` declares `session_id: str = uuid().hex` (similarly
`created_at` / `updated_at`).  Python evaluates a default-argument
expression once, when the `def` is executed (at class-definition
time), and stores the resulting value in the function object; every
later call that omits the argument reuses that stored value.  The
model draws fresh identifiers from a supply indexed by a per-process
counter: defining the class consumes one identifier, and constructing
an agent without an explicit `session_id` reuses it without drawing a
new one. -/

structure PyProcess where
  uuidCounter : Nat
deriving DecidableEq

/-- One `uuid4().hex` call: draws the next value from the supply. -/
def freshUuid (supply : Nat → String) (p : PyProcess) : String × PyProcess :=
  (supply p.uuidCounter, ⟨p.uuidCounter + 1⟩)

/-- Executing `class Agent: def __init__(self, ..., session_id: str =
uuid().hex, ...)`: the default expression runs once, now. -/
def defineAgentClass (supply : Nat → String) (p : PyProcess) :
    String × PyProcess :=
  freshUuid supply p

/-- Constructing an `Agent`: `session_id` falls back to the stored
default; no new uuid is drawn for it. -/
def agentNew (storedDefault : String) (sessionId : Option String)
    (p : PyProcess) : String × PyProcess :=
  match sessionId with
  | some s => (s, p)
  | none => (storedDefault, p)

/-! ### Claim C10 -/

/-- C10: two agents constructed without an explicit `session_id` share
the same identifier — the default `uuid().hex` was evaluated once at
definition time — so session identifiers are not globally unique, for
every uuid supply (however injective) and every process state.
Moreover the whole sequence (class definition, then two default
constructions) draws exactly one uuid from the supply: the
constructions draw none. -/
theorem C10_default_session_ids_collide (supply : Nat → String)
    (p : PyProcess) :
    ((agentNew (defineAgentClass supply p).1 none
          (defineAgentClass supply p).2).1 =
      (agentNew (defineAgentClass supply p).1 none
          (agentNew (defineAgentClass supply p).1 none
            (defineAgentClass supply p).2).2).1) ∧
      ((agentNew (defineAgentClass supply p).1 none
          (agentNew (defineAgentClass supply p).1 none
            (defineAgentClass supply p).2).2).2).uuidCounter =
        p.uuidCounter + 1 :=
  ⟨rfl, rfl⟩

/-! ## Persisted-record round trip

`Agent.from_json_string` parses `{"config": ..., "state": ...}`,
rebuilds the typed messages with `load_messages_from_dicts` (a
role-dispatched `model_validate`, the identity on well-typed message
data), merges the two objects and calls `Agent(**data)`.  The
constructor passes every configuration field through into a fresh
`AgentConfig` and every state field into a fresh `AgentState` — except
that `if not messages:` replaces an empty message list with a freshly
built system message.  `JsonAgentStore.save` then dumps
`{"config": config.model_dump(), "state": state.model_dump()}`;
`model_dump` is inverse to `model_validate` on such data, so the dump
of the reloaded agent is the identity on the record apart from that
empty-messages branch.  Records are modelled structurally (a record is
identified with its well-typed field content; timestamps are carried
as an opaque numeric value, which round-trips unchanged).  The system
message built by `MessageBuilder` renders templates loaded from disk;
the round trip is proved for an arbitrary builder function. -/

structure ToolCallData where
  name : String
  call : String
  id : String
  result : Option String
deriving DecidableEq

/-- The four message variants of models/messages.py with their
persisted fields. -/
inductive MsgRec where
  | system (content id : String)
  | user (content id : String) (name : Option String)
  | assistant (content id : String) (reasoning : Option String)
      (name : Option String) (toolCall : Option ToolCallData)
  | tool (content id : String) (name : String) (toolCall : ToolCallData)
deriving DecidableEq

/-- The persisted fields of `AgentConfig` (models/agent.py). -/
structure ConfigRec where
  name : String
  provider : String
  model : String
  tools : List String
  maxIterations : Int
  behavior : String
  autoSave : Bool
  userDataDir : String
  systemPromptData : List (String × String)
  toolsWithSource : Bool
  inferenceAdapter : String
  parser : String
deriving DecidableEq

/-- The persisted fields of `AgentState`. -/
structure StateRec where
  sessionId : String
  createdAt : Int
  updatedAt : Int
  messages : List MsgRec
deriving DecidableEq

/-- A persisted session record: a `config` object and a `state`
object. -/
structure AgentRecord where
  config : ConfigRec
  state : StateRec
deriving DecidableEq

/-- `Agent.from_json_string` followed by `JsonAgentStore.save`'s dump,
on a well-typed record: every field passes through unchanged, except
that an empty message list is replaced by a freshly built system
message (`if not messages:` in `Agent.__init__`).  `builder` abstracts
`MessageBuilder.build_system_message`. -/
def saveAfterLoad (builder : ConfigRec → MsgRec) (r : AgentRecord) : AgentRecord :=
  { config := r.config
    state := { r.state with
      messages := if r.state.messages.isEmpty then [builder r.config]
        else r.state.messages } }

/-! ### Claim C8 -/

/-- C8 counterexample: a record whose state holds an empty message list
does not round-trip — reloading it constructs a fresh system message,
so the re-saved record has one message where the original had none
(the claim promises the same message count). -/
theorem C8_counterexample_empty_messages :
    (saveAfterLoad (fun _ => .system "rendered system prompt" "id0")
        ⟨⟨"Momo", "ollama", "qwen2.5:0.5b", [], 15, "", true, ".vindao_agents",
            [], true, "litellm", "at_syntax"⟩,
          ⟨"abc123", 1700000000, 1700000000, []⟩⟩).state.messages.length = 1 ∧
      (⟨⟨"Momo", "ollama", "qwen2.5:0.5b", [], 15, "", true, ".vindao_agents",
            [], true, "litellm", "at_syntax"⟩,
          ⟨"abc123", 1700000000, 1700000000, []⟩⟩ :
        AgentRecord).state.messages.length = 0 := by
  decide

/-- C8 (amended: for records with a non-empty message sequence):
loading a persisted record and re-saving it without intervening
mutation reproduces the record exactly — in particular the same
message count, role tags, contents in the same order, and the same
tool-call linkage between assistant and tool messages. -/
theorem C8_round_trip (builder : ConfigRec → MsgRec) (r : AgentRecord)
    (h : r.state.messages ≠ []) : saveAfterLoad builder r = r := by
  have hne : r.state.messages.isEmpty = false := by
    cases hm : r.state.messages with
    | nil => exact absurd hm h
    | cons a l => rfl
  simp [saveAfterLoad, hne]

/-- C8 witness: a one-round conversation record round-trips
unchanged. -/
theorem C8_witness :
    saveAfterLoad (fun _ => .system "rendered system prompt" "id0")
        ⟨⟨"Momo", "ollama", "qwen2.5:0.5b", [], 15, "", true, ".vindao_agents",
            [], true, "litellm", "at_syntax"⟩,
          ⟨"abc123", 1700000000, 1700000001,
            [.system "sys" "m0", .user "hi" "m1" none,
              .assistant "ok @add(2, 3)" "m2" (some "thinking") none
                (some ⟨"add", "add(2, 3)", "tc1", some "5"⟩),
              .tool "5" "m3" "add" ⟨"add", "add(2, 3)", "tc1", some "5"⟩,
              .assistant "done" "m4" (some "") none none]⟩⟩ =
      ⟨⟨"Momo", "ollama", "qwen2.5:0.5b", [], 15, "", true, ".vindao_agents",
          [], true, "litellm", "at_syntax"⟩,
        ⟨"abc123", 1700000000, 1700000001,
          [.system "sys" "m0", .user "hi" "m1" none,
            .assistant "ok @add(2, 3)" "m2" (some "thinking") none
              (some ⟨"add", "add(2, 3)", "tc1", some "5"⟩),
            .tool "5" "m3" "add" ⟨"add", "add(2, 3)", "tc1", some "5"⟩,
            .assistant "done" "m4" (some "") none none]⟩⟩ :=
  C8_round_trip (fun _ => .system "rendered system prompt" "id0") _ (by simp)

end VindaoAgents
